import Mathlib

/-!
Verification development for `concat_files.py`, a script that selects files
from directory trees by layered inclusion/exclusion rules and concatenates
their contents into one markdown document.

The Python functions are shallowly embedded as executable Lean definitions:

* absolute, already-resolved filesystem paths are lists of name components
  (the script calls `Path.resolve()` on everything before comparing);
* `should_process_file` is the pure classification function;
* `build_file_list` is modelled on the stream of (resolved path, base folder)
  candidate events its walk produces;
* `process_file` is modelled on a read outcome (text / decode error / other
  error), and the concurrent merge step of `main` on the completion-ordered
  list of worker results;
* `fnmatch.fnmatch` is embedded as a glob matcher (`*`, `?`, bracket classes
  with `!` negation and ranges, unmatched `[` taken literally), and the
  `pathspec` gitignore matcher — an external library — is an abstract
  predicate parameter;
* `str.lower`, `str.strip` and character classes are modelled on ASCII.
-/

/-- Python `str.lower` on one ASCII character. -/
def charLower (c : Char) : Char :=
  if c.toNat ≥ 65 ∧ c.toNat ≤ 90 then Char.ofNat (c.toNat + 32) else c

/-- Python `str.lower` on a string (ASCII model). -/
def strLower (s : String) : String := String.mk (s.data.map charLower)

/-- Python whitespace characters stripped by `str.strip()` (ASCII model). -/
def isPySpace (c : Char) : Bool :=
  c == ' ' || c == '\t' || c == '\n' || c == '\x0d' || c == '\x0b' || c == '\x0c'

/-- Python `content.strip()`: drop leading and trailing whitespace. -/
def pyStrip (s : String) : String :=
  String.mk (((s.data.dropWhile isPySpace).reverse.dropWhile isPySpace).reverse)

/-- Trim only leading whitespace (used to express the spec-side trim). -/
def lstripOnly (s : String) : String := String.mk (s.data.dropWhile isPySpace)

/-- Trim only trailing whitespace (used to express the spec-side trim). -/
def rstripOnly (s : String) : String := String.mk ((s.data.reverse.dropWhile isPySpace).reverse)

/-- Python `part.startswith(".")`. -/
def strStartsWithDot (s : String) : Bool :=
  match s.data with
  | c :: _ => c == '.'
  | [] => false

/-- Index of the last `'.'` in a character list (Python `name.rfind(".")`),
`none` when there is no dot. -/
def rfindDot : List Char → Option Nat
  | [] => none
  | c :: cs =>
    match rfindDot cs with
    | some i => some (i + 1)
    | none => if c = '.' then some 0 else none

/-- Python `pathlib.PurePath.suffix` of a file name: the part from the last
dot on, empty when the dot is leading, trailing or absent. -/
def pySuffix (name : String) : String :=
  let cs := name.data
  match rfindDot cs with
  | some i => if 0 < i ∧ i < cs.length - 1 then String.mk (cs.drop i) else ""
  | none => ""

/-- Extension as computed in `should_process_file`:
`path.suffix[1:].lower() if path.suffix else ""`. -/
def extensionOf (name : String) : String :=
  if pySuffix name = "" then "" else strLower (String.mk ((pySuffix name).data.drop 1))

/-- Extension tag used for the fenced code block in `process_file`:
`filepath.suffix[1:].lower() if filepath.suffix else "txt"`. -/
def blockExtension (name : String) : String :=
  if pySuffix name = "" then "txt" else strLower (String.mk ((pySuffix name).data.drop 1))

/-- Tokens of a translated glob pattern (`fnmatch.translate`). -/
inductive GlobTok where
  | lit (c : Char)
  | anyOne
  | star
  | oneOf (neg : Bool) (ranges : List (Char × Char))
deriving DecidableEq

/-- Character ranges of a bracket-class body: `a-b` is a range, any other
character a singleton, a trailing `-` a literal. -/
def rangesOf : List Char → List (Char × Char)
  | [] => []
  | a :: '-' :: b :: rest => (a, b) :: rangesOf rest
  | a :: rest => (a, a) :: rangesOf rest

/-- Reinterpretation of one raw character when an unmatched `[` makes the
scanned class body ordinary pattern text again. -/
def reTok (c : Char) : GlobTok :=
  if c = '*' then .star else if c = '?' then .anyOne else .lit c

/-- Scanner position inside a bracket class: just after `[` a `!` negates,
just after that a `]` is a literal member, then `]` closes the class. -/
inductive ClassStage where
  | maybeBang
  | maybeClose
  | scanning
deriving DecidableEq

/-- Parser mode: ordinary pattern text, or inside a bracket class holding the
negation flag, the class body so far and all raw characters consumed since
the opening `[` (for the unmatched-`[` fallback). -/
inductive PMode where
  | norm
  | inCls (stage : ClassStage) (neg : Bool) (acc : List Char) (raw : List Char)

/-- One-pass glob pattern parser (the translation step of `fnmatch`). -/
def pgAux : PMode → List Char → List GlobTok
  | .norm, [] => []
  | .norm, '*' :: ps => .star :: pgAux .norm ps
  | .norm, '?' :: ps => .anyOne :: pgAux .norm ps
  | .norm, '[' :: ps => pgAux (.inCls .maybeBang false [] []) ps
  | .norm, c :: ps => .lit c :: pgAux .norm ps
  | .inCls _ _ _ raw, [] => .lit '[' :: raw.reverse.map reTok
  | .inCls .maybeBang _ acc raw, c :: ps =>
    if c = '!' then pgAux (.inCls .maybeClose true acc (c :: raw)) ps
    else pgAux (.inCls .scanning false (c :: acc) (c :: raw)) ps
  | .inCls .maybeClose neg acc raw, c :: ps =>
    pgAux (.inCls .scanning neg (c :: acc) (c :: raw)) ps
  | .inCls .scanning neg acc raw, c :: ps =>
    if c = ']' then .oneOf neg (rangesOf acc.reverse) :: pgAux .norm ps
    else pgAux (.inCls .scanning neg (c :: acc) (c :: raw)) ps

/-- Glob pattern to token list. -/
def parseGlob (pat : List Char) : List GlobTok := pgAux .norm pat

/-- Membership of a character in a bracket class (code-point ranges). -/
def inRanges (items : List (Char × Char)) (c : Char) : Bool :=
  items.any (fun ab => decide (ab.1.toNat ≤ c.toNat) && decide (c.toNat ≤ ab.2.toNat))

/-- Fuel-bounded full matcher of a token list against a text.  Every
recursive call lowers `toks.length + text.length`, so fuel
`toks.length + text.length + 1` never runs out and the `0` case is
unreachable at the fuel `fnmatchB` supplies. -/
def globMatchF : Nat → List GlobTok → List Char → Bool
  | 0, _, _ => false
  | _ + 1, [], t => t.isEmpty
  | n + 1, .star :: ps, [] => globMatchF n ps []
  | n + 1, .star :: ps, c :: ts => globMatchF n ps (c :: ts) || globMatchF n (.star :: ps) ts
  | _ + 1, .anyOne :: _, [] => false
  | n + 1, .anyOne :: ps, _ :: ts => globMatchF n ps ts
  | _ + 1, .oneOf _ _ :: _, [] => false
  | n + 1, .oneOf neg items :: ps, c :: ts => ((inRanges items c) != neg) && globMatchF n ps ts
  | _ + 1, .lit _ :: _, [] => false
  | n + 1, .lit pc :: ps, c :: ts => (pc == c) && globMatchF n ps ts

/-- Python `fnmatch.fnmatch(name, pattern)` (POSIX: `normcase` is the
identity). -/
def fnmatchB (name pat : String) : Bool :=
  globMatchF ((parseGlob pat.data).length + name.data.length + 1) (parseGlob pat.data) name.data

/-- Python list membership `x in l` for strings. -/
def listHas (l : List String) (x : String) : Bool := l.any (fun y => y == x)

/-- Rule set handed to `should_process_file` (the `options` dictionary built
in `main`).  Paths are resolved component lists; the gitignore matcher from
the external `pathspec` library is an abstract predicate on the relative
path string. -/
structure Options where
  baseFolders : List (List String)
  outputFileResolved : Option (List String)
  includeHidden : Bool
  includeFiles : List String
  includePatterns : List String
  excludeFiles : List (List String)
  excludePatterns : List String
  ignoreSpec : Option (String → Bool)
  resolvedExcludeFolders : List (List String)
  excludeFolderPatterns : List String
  excludeExtensions : List String
  extensions : List String

/-- Python `path.name`: last component of a path. -/
def pathName (p : List String) : String := p.getLast?.getD ""

/-- First base folder that equals the path or is among its parents, with the
relative components (`path.relative_to(base)`); the loop in
`should_process_file`. -/
def findBase : List (List String) → List String → Option (List String × List String)
  | [], _ => none
  | bf :: rest, p =>
    if bf.isPrefixOf p then some (bf, p.drop bf.length) else findBase rest p

/-- String form of a relative component list (`str(path.relative_to(base))`;
`"."` for the base itself). -/
def relStrOf (rel : List String) : String :=
  if rel.isEmpty then "." else String.intercalate "/" rel

/-- Hidden check of `should_process_file`: `path.name` together with the
names of the parents of the relative path (the parent chain of
`Path(relative_path_str)` ends in `Path "."` whose name is `""`). -/
def hiddenCheck (p rel : List String) : Bool :=
  let comps := pathName p :: (if rel.isEmpty then [] else rel.dropLast.reverse ++ [""])
  comps.any (fun part => (part != ".") && strStartsWithDot part)

/-- Explicit inclusion flag: exact file-name hit in `include_files`, or a
file-name glob hit there, or a relative-path glob hit in
`include_patterns`. -/
def explicitlyIncludedB (opts : Options) (p : List String) (relStr : String) : Bool :=
  (!opts.includeFiles.isEmpty && listHas opts.includeFiles (pathName p))
    || (!opts.includeFiles.isEmpty && opts.includeFiles.any (fun pat => fnmatchB (pathName p) pat))
    || (!opts.includePatterns.isEmpty && opts.includePatterns.any (fun pat => fnmatchB relStr pat))

/-- Exclusion by specific file: resolved-path equality or bare-name equality
against `exclude_files`. -/
def excludedBySpecificFile (opts : Options) (p : List String) : Bool :=
  !opts.excludeFiles.isEmpty &&
    (opts.excludeFiles.any (fun e => e == p)
      || opts.excludeFiles.any (fun e => pathName e == pathName p))

/-- Exclusion by relative-path glob against `exclude_patterns`. -/
def excludedByPattern (opts : Options) (relStr : String) : Bool :=
  !opts.excludePatterns.isEmpty && opts.excludePatterns.any (fun pat => fnmatchB relStr pat)

/-- Exclusion by the gitignore matcher (`options["spec"].match_file`). -/
def excludedByIgnore (opts : Options) (relStr : String) : Bool :=
  match opts.ignoreSpec with
  | some m => m relStr
  | none => false

/-- Python `anc in path.parents` for resolved component paths: a proper
initial segment. -/
def inParents (anc p : List String) : Bool := anc.isPrefixOf p && decide (anc.length < p.length)

/-- Folder exclusion failsafe: a resolved excluded folder equals the parent
or is among the parents, or some component of the relative path matches an
`exclude_folders` glob pattern. -/
def excludedByFolder (opts : Options) (p rel : List String) : Bool :=
  opts.resolvedExcludeFolders.any (fun exc => exc == p.dropLast || inParents exc p)
    || rel.any (fun part => opts.excludeFolderPatterns.any (fun pat => fnmatchB part pat))

/-- Extension gate reached only for files that are not explicitly included:
denied extensions first, then the allow-list (`not options.get("extensions")
or extension not in options["extensions"]` also fails when the allow-list is
empty). -/
def extensionGate (opts : Options) (p : List String) : Bool :=
  let ext := extensionOf (pathName p)
  if !opts.excludeExtensions.isEmpty && listHas opts.excludeExtensions ext then false
  else if opts.extensions.isEmpty || !(listHas opts.extensions ext) then false
  else true

/-- Lexicographic code-point comparison of character lists (Python string
`<=`, also the order on `pathlib` paths, which compare by their string). -/
def charsLe : List Char → List Char → Bool
  | [], _ => true
  | _ :: _, [] => false
  | a :: as, b :: bs =>
    if a.toNat < b.toNat then true
    else if b.toNat < a.toNat then false
    else charsLe as bs

/-- Python `<=` on strings. -/
def strLeB (a b : String) : Bool := charsLe a.data b.data

/-- Embedding of `should_process_file(filepath, options)`. -/
def should_process_file (p : List String) (opts : Options) : Bool :=
  match findBase opts.baseFolders p with
  | none => false
  | some br =>
    let rel := br.2
    if opts.outputFileResolved = some p then false
    else if !opts.includeHidden && hiddenCheck p rel then false
    else if excludedBySpecificFile opts p then false
    else if excludedByPattern opts (relStrOf rel) then false
    else if excludedByIgnore opts (relStrOf rel) then false
    else if excludedByFolder opts p rel then false
    else if !(explicitlyIncludedB opts p (relStrOf rel)) then extensionGate opts p
    else true

/-- Membership test on a list of resolved paths (`resolved_filepath not in
files_to_process`). -/
def listHasP (l : List (List String)) (x : List String) : Bool := l.any (fun y => y == x)

/-- One candidate event of the walk in `build_file_list`: a file accepted by
`should_process_file`, paired with the resolved base folder whose walk
produced it.  Dedup: a path already collected is dropped, otherwise it is
added and its owning base recorded. -/
def addCandidate (acc : List (List String) × List (List String × List String))
    (ev : List String × List String) :
    List (List String) × List (List String × List String) :=
  if listHasP acc.1 ev.1 then acc else (acc.1 ++ [ev.1], acc.2 ++ [(ev.1, ev.2)])

/-- Left fold of `addCandidate` over the candidate events in discovery
order. -/
def buildSelectionAux (acc : List (List String) × List (List String × List String)) :
    List (List String × List String) →
      List (List String) × List (List String × List String)
  | [] => acc
  | e :: rest => buildSelectionAux (addCandidate acc e) rest

/-- Accumulated `(files_to_process, file_to_base_map)` of `build_file_list`
from the stream of accepted candidate events. -/
def buildSelection (events : List (List String × List String)) :
    List (List String) × List (List String × List String) :=
  buildSelectionAux ([], []) events

/-- String form of a resolved absolute path (`str(path)`), the sort key of
`sorted(list(files_to_process))`. -/
def joinPath (p : List String) : String := "/" ++ String.intercalate "/" p

/-- Order on resolved paths used by the final `sorted` in
`build_file_list`. -/
def pathLe (a b : List String) : Prop := strLeB (joinPath a) (joinPath b) = true

instance : DecidableRel pathLe := fun x y => inferInstanceAs (Decidable (strLeB (joinPath x) (joinPath y) = true))

/-- Embedding of `build_file_list`: deduplicated accepted paths sorted by
resolved path, plus the first-discovery base-folder map. -/
def build_file_list (events : List (List String × List String)) :
    List (List String) × List (List String × List String) :=
  ((buildSelection events).1.insertionSort pathLe, (buildSelection events).2)

/-- Association-list lookup for the `file_to_base_map` dictionary. -/
def lookupA : List (List String × List String) → List String → Option (List String)
  | [], _ => none
  | (k, v) :: rest, p => if k = p then some v else lookupA rest p

/-- Embedding of `normalize_path(path, base_folder)` on resolved paths. -/
def normalize_path (p base : List String) : Option (List String) :=
  if inParents base p = false ∧ p ≠ base then
    if p.dropLast = base then some [pathName p] else none
  else some (p.drop base.length)

/-- Outcome of reading one selected file in a worker. -/
inductive ReadResult where
  | text (content : String)
  | decodeError
  | readError

/-- Formatted text block of `process_file`: header line, fenced code region
tagged with the extension, body, closing fence. -/
def mkBlockFmt (relStr ext body : String) : String :=
  "## `" ++ relStr ++ "`\n\n" ++ "```" ++ ext ++ "\n" ++ body ++ "\n```\n\n"

/-- Placeholder block emitted for a file whose bytes fail text decoding. -/
def binaryBlock (relStr : String) : String :=
  "## `" ++ relStr ++ "`\n\n" ++ "[Binary file content not displayed]\n\n"

/-- Embedding of `process_file(filepath, base_folder)` given the read
outcome: a `(relative path, formatted block)` pair, or `none` when the
relative path cannot be formed or a non-decode read error occurs. -/
def process_file (p base : List String) (r : ReadResult) : Option (String × String) :=
  match normalize_path p base with
  | none => none
  | some rel =>
    match r with
    | .text content =>
      some (relStrOf rel, mkBlockFmt (relStrOf rel) (blockExtension (pathName p)) (pyStrip content))
    | .decodeError => some (relStrOf rel, binaryBlock (relStrOf rel))
    | .readError => none

/-- Python dict assignment `d[k] = v`: replace in place or append. -/
def dictInsert : List (String × String) → String → String → List (String × String)
  | [], k, v => [(k, v)]
  | (k2, v2) :: rest, k, v =>
    if k2 = k then (k2, v) :: rest else (k2, v2) :: dictInsert rest k v

/-- The `as_completed` loop of `main`: worker results in completion order
fill the `processed_content` dict; a `None` result bumps the skip
counter. -/
def collectResults (results : List (Option (String × String))) :
    List (String × String) × Nat :=
  results.foldl
    (fun acc r =>
      match r with
      | some kv => (dictInsert acc.1 kv.1 kv.2, acc.2)
      | none => (acc.1, acc.2 + 1))
    ([], 0)

/-- Order on dict items used by `sorted(processed_content.items(),
key=lambda item: item[0])`. -/
def keyLe (a b : String × String) : Prop := strLeB a.1 b.1 = true

/-- Strict version of the dict-item order: key strictly smaller. -/
def keyLt (a b : String × String) : Prop := strLeB a.1 b.1 = true ∧ a.1 ≠ b.1

instance : DecidableRel keyLe := fun x y => inferInstanceAs (Decidable (strLeB x.1 y.1 = true))

/-- Final write of `main`: dict items sorted by relative path,
concatenated. -/
def writeSorted (d : List (String × String)) : String :=
  String.join ((d.insertionSort keyLe).map Prod.snd)

/-- Content section of the output document as a function of the worker
results in completion order: fill the dict, sort by relative path, write. -/
def mergeBlocks (results : List (String × String)) : String :=
  writeSorted (results.foldl (fun d kv => dictInsert d kv.1 kv.2) [])

/-- One `-f` argument as the `path_type` converter sees it: the raw string
plus the `exists` / `is_dir` facts of the named filesystem entry. -/
structure PathArg where
  raw : String
  pathExists : Bool
  isDir : Bool
  path : List String

/-- Embedding of `path_type(path_str)`: an `ArgumentTypeError` becomes an
`Except.error`. -/
def path_type (a : PathArg) : Except String (List String) :=
  if a.pathExists = false then Except.error ("Path " ++ a.raw ++ " does not exist.")
  else if a.isDir = false then Except.error ("Path " ++ a.raw ++ " is not a directory.")
  else Except.ok a.path

/-- Argparse applying `path_type` to every `-f` value: the first
`ArgumentTypeError` aborts the whole parse (argparse exits with a usage
error), so no list of roots is produced at all. -/
def parseFolders : List PathArg → Except String (List (List String))
  | [] => Except.ok []
  | a :: rest =>
    match path_type a with
    | Except.error e => Except.error e
    | Except.ok p =>
      match parseFolders rest with
      | Except.error e => Except.error e
      | Except.ok ps => Except.ok (p :: ps)

/-- Empty rule set: every list empty, hidden entries excluded, no gitignore
matcher, no output-file guard. -/
def emptyOpts : Options :=
  { baseFolders := [], outputFileResolved := none, includeHidden := false,
    includeFiles := [], includePatterns := [], excludeFiles := [],
    excludePatterns := [], ignoreSpec := none, resolvedExcludeFolders := [],
    excludeFolderPatterns := [], excludeExtensions := [], extensions := [] }

/-- Rule set with `--include-files a.py --exclude-extensions py`. -/
def c1Opts : Options :=
  { emptyOpts with
      baseFolders := [["base"]]
      includeFiles := ["a.py"]
      excludeExtensions := ["py"] }

/-- Candidate file `base/a.py`. -/
def c1Path : List String := ["base", "a.py"]

/-- Rule set with `--include-files a.min.js --exclude-patterns *.min.js -e js`. -/
def c2Opts : Options :=
  { emptyOpts with
      baseFolders := [["base"]]
      includeFiles := ["a.min.js"]
      excludePatterns := ["*.min.js"]
      extensions := ["js"] }

/-- Candidate file `base/a.min.js`. -/
def c2Path : List String := ["base", "a.min.js"]

/-- Rule set with one base folder and every filter list empty (in
particular an empty extension allow-list). -/
def c3Opts : Options := { emptyOpts with baseFolders := [["base"]] }

/-- Rule set with only `-e py`. -/
def c3wOpts : Options :=
  { emptyOpts with baseFolders := [["base"]], extensions := ["py"] }

/-- Candidate file `base/a.py` for the empty-allow-list runs. -/
def c3Path : List String := ["base", "a.py"]

/-- Block produced for `A/x.py` read under root `A` with content `alpha`. -/
def c4BlockA : String × String :=
  (process_file ["A", "x.py"] ["A"] (.text "alpha")).getD ("", "")

/-- Block produced for `B/x.py` read under root `B` with content `beta`. -/
def c4BlockB : String × String :=
  (process_file ["B", "x.py"] ["B"] (.text "beta")).getD ("", "")

/-- Walk events of a run over roots `A` and `B` in which the file `A/x.py`
is discovered twice (once under each root) and `B/y.py` once. -/
def c5Events : List (List String × List String) :=
  [(["A", "x.py"], ["A"]), (["A", "x.py"], ["B"]), (["B", "y.py"], ["B"])]

/-- Walk events of a run over disjoint roots `A` and `B` that both contain a
file named `x.py`. -/
def c6Events : List (List String × List String) :=
  [(["A", "x.py"], ["A"]), (["B", "x.py"], ["B"])]

/-- A valid `-f` argument: an existing directory. -/
def c7Good : PathArg := { raw := "good", pathExists := true, isDir := true, path := ["good"] }

/-- An invalid `-f` argument: a path that does not exist. -/
def c7Bad : PathArg := { raw := "bad", pathExists := false, isDir := true, path := ["bad"] }

/-- Rule set with `--include-hidden -e py` only. -/
def c10Opts : Options :=
  { emptyOpts with
      baseFolders := [["base"]]
      includeHidden := true
      extensions := ["py"] }

/-- Rule set with only `--exclude-extensions py`. -/
def c1wOpts : Options :=
  { emptyOpts with
      baseFolders := [["base"]]
      excludeExtensions := ["py"] }

/-- Candidate dotfile `base/.env`. -/
def c10Path : List String := ["base", ".env"]

/-- Number of occurrences of a resolved path in the final selection
list. -/
def countOcc (l : List (List String)) (x : List String) : Nat :=
  (l.filter (fun y => y = x)).length

theorem char_toNat_inj {a b : Char} (h : a.toNat = b.toNat) : a = b := by
  apply Char.ext
  exact UInt32.ext h

theorem charsLe_total : ∀ as bs, charsLe as bs = true ∨ charsLe bs as = true := by
  intro as
  induction as with
  | nil => intro bs; left; rfl
  | cons a as ih =>
    intro bs
    cases bs with
    | nil => right; rfl
    | cons b bs =>
      simp only [charsLe]
      rcases Nat.lt_trichotomy a.toNat b.toNat with h | h | h
      · left; simp [h]
      · have h1 : ¬ a.toNat < b.toNat := by omega
        have h2 : ¬ b.toNat < a.toNat := by omega
        rcases ih bs with h3 | h3 <;> simp_all
      · right; simp [h, Nat.lt_asymm h]

theorem charsLe_trans : ∀ as bs cs, charsLe as bs = true → charsLe bs cs = true →
    charsLe as cs = true := by
  intro as
  induction as with
  | nil => intros; rfl
  | cons a as ih =>
    intro bs cs h1 h2
    cases bs with
    | nil => simp [charsLe] at h1
    | cons b bs =>
      cases cs with
      | nil => simp [charsLe] at h2
      | cons c cs =>
        simp only [charsLe] at h1 h2 ⊢
        by_cases hab : a.toNat < b.toNat
        · by_cases hbc : b.toNat < c.toNat
          · have h : a.toNat < c.toNat := by omega
            simp [h]
          · by_cases hcb : c.toNat < b.toNat
            · simp [hbc, hcb] at h2
            · have h : a.toNat < c.toNat := by omega
              simp [h]
        · by_cases hba : b.toNat < a.toNat
          · simp [hab, hba] at h1
          · simp [hab, hba] at h1
            by_cases hbc : b.toNat < c.toNat
            · have h : a.toNat < c.toNat := by omega
              simp [h]
            · by_cases hcb : c.toNat < b.toNat
              · simp [hbc, hcb] at h2
              · simp [hbc, hcb] at h2
                have h3 : ¬ a.toNat < c.toNat := by omega
                have h4 : ¬ c.toNat < a.toNat := by omega
                simp [h3, h4]
                exact ih bs cs h1 h2

theorem charsLe_antisymm : ∀ as bs, charsLe as bs = true → charsLe bs as = true → as = bs := by
  intro as
  induction as with
  | nil =>
    intro bs h1 h2
    cases bs with
    | nil => rfl
    | cons b bs => simp [charsLe] at h2
  | cons a as ih =>
    intro bs h1 h2
    cases bs with
    | nil => simp [charsLe] at h1
    | cons b bs =>
      simp only [charsLe] at h1 h2
      rcases Nat.lt_trichotomy a.toNat b.toNat with hab | hab | hab
      · simp [hab, Nat.lt_asymm hab] at h2
      · have hba : ¬ b.toNat < a.toNat := by omega
        have hab2 : ¬ a.toNat < b.toNat := by omega
        simp [hab2, hba] at h1 h2
        rw [char_toNat_inj hab, ih bs h1 h2]
      · simp [hab, Nat.lt_asymm hab] at h1

instance : IsTotal (String × String) keyLe :=
  ⟨fun a b => by
    unfold keyLe strLeB
    exact charsLe_total a.1.data b.1.data⟩

instance : IsTrans (String × String) keyLe :=
  ⟨fun a b c h1 h2 => by
    unfold keyLe strLeB at h1 h2 ⊢
    exact charsLe_trans _ _ _ h1 h2⟩

theorem listHas_ne_nil {l : List String} {x : String} (h : listHas l x = true) :
    l.isEmpty = false := by
  cases l with
  | nil => simp [listHas] at h
  | cons a l => rfl

theorem rfindDot_eq_none {cs : List Char} (h : '.' ∉ cs) : rfindDot cs = none := by
  induction cs with
  | nil => rfl
  | cons c cs ih =>
    simp only [List.mem_cons, not_or] at h
    simp [rfindDot, ih h.2, h.1]
    intro hc
    exact absurd hc.symm h.1

theorem extensionOf_dotfile {name : String} {rest : List Char}
    (hname : name.data = '.' :: rest) (hnod : '.' ∉ rest) :
    extensionOf name = "" := by
  have h1 : rfindDot name.data = some 0 := by
    rw [hname]
    simp [rfindDot, rfindDot_eq_none hnod]
  unfold extensionOf pySuffix
  simp [h1]

theorem spf_false_of_excl (opts : Options) (p bf rel : List String)
    (hfb : findBase opts.baseFolders p = some (bf, rel))
    (h : excludedBySpecificFile opts p = true ∨ excludedByPattern opts (relStrOf rel) = true
      ∨ excludedByIgnore opts (relStrOf rel) = true ∨ excludedByFolder opts p rel = true) :
    should_process_file p opts = false := by
  unfold should_process_file
  rw [hfb]
  rcases h with h | h | h | h <;> split_ifs <;> simp_all

theorem spf_eq_of_pass (opts : Options) (p bf rel : List String)
    (hfb : findBase opts.baseFolders p = some (bf, rel))
    (hout : opts.outputFileResolved ≠ some p)
    (hhid : (!opts.includeHidden && hiddenCheck p rel) = false)
    (hsf : excludedBySpecificFile opts p = false)
    (hpat : excludedByPattern opts (relStrOf rel) = false)
    (hig : excludedByIgnore opts (relStrOf rel) = false)
    (hfold : excludedByFolder opts p rel = false) :
    should_process_file p opts =
      (explicitlyIncludedB opts p (relStrOf rel) || extensionGate opts p) := by
  unfold should_process_file
  rw [hfb]
  simp only [hout, hhid, hsf, hpat, hig, hfold]
  cases hx : explicitlyIncludedB opts p (relStrOf rel) <;> simp_all

/-- C1 counterexample: under `--include-files a.py --exclude-extensions py`
the file `base/a.py` has its extension in the denied-extension set and is
explicitly included by filename, yet `should_process_file` accepts it, so a
deny-extension rule does not win over explicit inclusion. -/
theorem c1_counterexample :
    listHas c1Opts.excludeExtensions (extensionOf (pathName c1Path)) = true
      ∧ explicitlyIncludedB c1Opts c1Path (relStrOf ["a.py"]) = true
      ∧ should_process_file c1Path c1Opts = true :=
  ⟨by decide, by decide, by decide⟩

/-- C1 (amended): a denied extension excludes exactly the files that are not
explicitly included; for an explicitly included file the whole extension
gate, its denied-extension half included, is skipped. -/
theorem c1_deny_extension_amended (opts : Options) (p bf rel : List String)
    (hfb : findBase opts.baseFolders p = some (bf, rel))
    (hinc : explicitlyIncludedB opts p (relStrOf rel) = false)
    (hdeny : listHas opts.excludeExtensions (extensionOf (pathName p)) = true) :
    should_process_file p opts = false := by
  unfold should_process_file
  rw [hfb]
  have hgate : extensionGate opts p = false := by
    unfold extensionGate
    simp [listHas_ne_nil hdeny, hdeny]
  split_ifs <;> simp_all

/-- Witness for the amended C1 theorem at `base/a.py` under
`--exclude-extensions py` with no inclusion rules. -/
theorem c1_amended_witness :
    explicitlyIncludedB c1wOpts c3Path (relStrOf ["a.py"]) = false
      ∧ listHas c1wOpts.excludeExtensions (extensionOf (pathName c3Path)) = true
      ∧ should_process_file c3Path c1wOpts = false :=
  ⟨by decide, by decide,
    c1_deny_extension_amended c1wOpts c3Path ["base"] ["a.py"] (by decide) (by decide)
      (by decide)⟩

/-- C2: for a candidate with a base folder, explicit inclusion
notwithstanding, each of the specific-file, path-glob, ignore-matcher and
folder exclusion checks still forces `should_process_file` to exclude; the
inclusion flag suppresses none of them. -/
theorem c2_exclusion_precedence (opts : Options) (p bf rel : List String)
    (hfb : findBase opts.baseFolders p = some (bf, rel))
    (_hinc : explicitlyIncludedB opts p (relStrOf rel) = true) :
    (excludedBySpecificFile opts p = true → should_process_file p opts = false)
      ∧ (excludedByPattern opts (relStrOf rel) = true → should_process_file p opts = false)
      ∧ (excludedByIgnore opts (relStrOf rel) = true → should_process_file p opts = false)
      ∧ (excludedByFolder opts p rel = true → should_process_file p opts = false) :=
  ⟨fun h => spf_false_of_excl opts p bf rel hfb (Or.inl h),
    fun h => spf_false_of_excl opts p bf rel hfb (Or.inr (Or.inl h)),
    fun h => spf_false_of_excl opts p bf rel hfb (Or.inr (Or.inr (Or.inl h))),
    fun h => spf_false_of_excl opts p bf rel hfb (Or.inr (Or.inr (Or.inr h)))⟩

/-- Witness for C2 at `base/a.min.js` under `--include-files a.min.js
--exclude-patterns *.min.js -e js`: explicitly included, matching the
exclude pattern, excluded. -/
theorem c2_witness :
    explicitlyIncludedB c2Opts c2Path (relStrOf ["a.min.js"]) = true
      ∧ excludedByPattern c2Opts (relStrOf ["a.min.js"]) = true
      ∧ should_process_file c2Path c2Opts = false :=
  ⟨by decide, by decide,
    (c2_exclusion_precedence c2Opts c2Path ["base"] ["a.min.js"] (by decide)
      (by decide)).2.1 (by decide)⟩

/-- C3 counterexample: `base/a.py` with an empty allow-list, an empty deny
list, no explicit inclusion and every other check passing is excluded by
`should_process_file`, where the claim says an empty allow-list must not
exclude and the file must be included. -/
theorem c3_counterexample :
    explicitlyIncludedB c3Opts c3Path (relStrOf ["a.py"]) = false
      ∧ listHas c3Opts.excludeExtensions (extensionOf (pathName c3Path)) = false
      ∧ c3Opts.extensions = []
      ∧ excludedBySpecificFile c3Opts c3Path = false
      ∧ excludedByPattern c3Opts (relStrOf ["a.py"]) = false
      ∧ excludedByIgnore c3Opts (relStrOf ["a.py"]) = false
      ∧ excludedByFolder c3Opts c3Path ["a.py"] = false
      ∧ hiddenCheck c3Path ["a.py"] = false
      ∧ should_process_file c3Path c3Opts = false :=
  ⟨by decide, by decide, by decide, by decide, by decide, by decide, by decide, by decide,
    by decide⟩

/-- C3 (amended): for a file that is not explicitly included and passes all
earlier checks, `should_process_file` accepts it exactly when the denied
set misses its extension, the allow-list is non-empty and the allow-list
contains its extension; in particular an empty allow-list excludes
everything not explicitly included. -/
theorem c3_extension_gate_amended (opts : Options) (p bf rel : List String)
    (hfb : findBase opts.baseFolders p = some (bf, rel))
    (hout : opts.outputFileResolved ≠ some p)
    (hhid : (!opts.includeHidden && hiddenCheck p rel) = false)
    (hsf : excludedBySpecificFile opts p = false)
    (hpat : excludedByPattern opts (relStrOf rel) = false)
    (hig : excludedByIgnore opts (relStrOf rel) = false)
    (hfold : excludedByFolder opts p rel = false)
    (hinc : explicitlyIncludedB opts p (relStrOf rel) = false) :
    should_process_file p opts = true ↔
      (listHas opts.excludeExtensions (extensionOf (pathName p)) = false
        ∧ opts.extensions.isEmpty = false
        ∧ listHas opts.extensions (extensionOf (pathName p)) = true) := by
  rw [spf_eq_of_pass opts p bf rel hfb hout hhid hsf hpat hig hfold, hinc]
  simp only [Bool.false_or]
  cases hd : listHas opts.excludeExtensions (extensionOf (pathName p)) with
  | true => simp [extensionGate, hd, listHas_ne_nil hd]
  | false =>
    cases he : opts.extensions.isEmpty with
    | true => simp [extensionGate, hd, he]
    | false =>
      cases ha : listHas opts.extensions (extensionOf (pathName p)) with
      | true => simp [extensionGate, hd, he, ha]
      | false => simp [extensionGate, hd, he, ha]

/-- Witness for the amended C3 theorem at `base/a.py` under `-e py`. -/
theorem c3_amended_witness :
    explicitlyIncludedB c3wOpts c3Path (relStrOf ["a.py"]) = false
      ∧ (should_process_file c3Path c3wOpts = true ↔
          (listHas c3wOpts.excludeExtensions (extensionOf (pathName c3Path)) = false
            ∧ c3wOpts.extensions.isEmpty = false
            ∧ listHas c3wOpts.extensions (extensionOf (pathName c3Path)) = true)) :=
  ⟨by decide,
    c3_extension_gate_amended c3wOpts c3Path ["base"] ["a.py"] (by decide) (by decide)
      (by decide) (by decide) (by decide) (by decide) (by decide) (by decide)⟩

/-- C10: a file whose name starts with a dot and has no further dot gets the
empty extension, and with hidden entries allowed, no explicit inclusion, a
non-empty allow-list not containing the empty string and all other checks
passing, `should_process_file` excludes it through the extension gate. -/
theorem c10_dotfile_extension (opts : Options) (p bf rel : List String) (rest : List Char)
    (hname : (pathName p).data = '.' :: rest)
    (hnod : '.' ∉ rest)
    (hfb : findBase opts.baseFolders p = some (bf, rel))
    (hhidden : opts.includeHidden = true)
    (hout : opts.outputFileResolved ≠ some p)
    (hsf : excludedBySpecificFile opts p = false)
    (hpat : excludedByPattern opts (relStrOf rel) = false)
    (hig : excludedByIgnore opts (relStrOf rel) = false)
    (hfold : excludedByFolder opts p rel = false)
    (hinc : explicitlyIncludedB opts p (relStrOf rel) = false)
    (_hne : opts.extensions.isEmpty = false)
    (hnm : listHas opts.extensions "" = false) :
    extensionOf (pathName p) = "" ∧ should_process_file p opts = false := by
  have hext : extensionOf (pathName p) = "" := extensionOf_dotfile hname hnod
  refine ⟨hext, ?_⟩
  have hhid : (!opts.includeHidden && hiddenCheck p rel) = false := by simp [hhidden]
  rw [spf_eq_of_pass opts p bf rel hfb hout hhid hsf hpat hig hfold, hinc]
  simp only [Bool.false_or]
  cases hd : listHas opts.excludeExtensions "" with
  | true => simp [extensionGate, hext, hd, listHas_ne_nil hd]
  | false => simp [extensionGate, hext, hd, hnm]

/-- Witness for C10 at `base/.env` under `--include-hidden -e py`. -/
theorem c10_witness :
    extensionOf (pathName c10Path) = "" ∧ should_process_file c10Path c10Opts = false :=
  c10_dotfile_extension c10Opts c10Path ["base"] [".env"] ['e', 'n', 'v'] (by decide)
    (by decide) (by decide) (by decide) (by decide) (by decide) (by decide) (by decide)
    (by decide) (by decide) (by decide) (by decide)

/-- C7 counterexample: with a valid root followed by a root that does not
exist, `path_type` raises inside argparse and `parseFolders` fails as a
whole: the run is fatal and the remaining valid root is discarded rather
than traversed. -/
theorem c7_counterexample :
    parseFolders [c7Good, c7Bad] = Except.error "Path bad does not exist."
      ∧ path_type c7Good = Except.ok ["good"] :=
  ⟨rfl, rfl⟩

/-- C7 (amended): a configured root that does not exist or is not a
directory makes the whole argument parse fail with an error; no root list
is produced and nothing is traversed. -/
theorem c7_invalid_root_fatal_amended (args : List PathArg) (a : PathArg)
    (hmem : a ∈ args) (hbad : a.pathExists = false ∨ a.isDir = false) :
    ∃ msg, parseFolders args = Except.error msg := by
  induction args with
  | nil => cases hmem
  | cons b rest ih =>
    cases hmem with
    | head =>
      cases hex : a.pathExists with
      | false =>
        refine ⟨"Path " ++ a.raw ++ " does not exist.", ?_⟩
        simp [parseFolders, path_type, hex]
      | true =>
        have hdir : a.isDir = false := by
          rcases hbad with h | h
          · rw [hex] at h; cases h
          · exact h
        refine ⟨"Path " ++ a.raw ++ " is not a directory.", ?_⟩
        simp [parseFolders, path_type, hex, hdir]
    | tail _ hmem2 =>
      rcases ih hmem2 with ⟨msg, hmsg⟩
      cases hpt : path_type b with
      | error e => exact ⟨e, by simp [parseFolders, hpt]⟩
      | ok ps => exact ⟨msg, by simp [parseFolders, hpt, hmsg]⟩

/-- Witness for the amended C7 theorem: one valid and one missing root. -/
theorem c7_amended_witness :
    c7Bad ∈ [c7Good, c7Bad]
      ∧ (c7Bad.pathExists = false ∨ c7Bad.isDir = false)
      ∧ ∃ msg, parseFolders [c7Good, c7Bad] = Except.error msg :=
  ⟨List.Mem.tail _ (List.Mem.head _), Or.inl rfl,
    c7_invalid_root_fatal_amended [c7Good, c7Bad] c7Bad
      (List.Mem.tail _ (List.Mem.head _)) (Or.inl rfl)⟩

/-- C8: a decode failure on a selected file is not dropped and not counted
as a failure: `process_file` produces the header followed by the binary
placeholder, while a true read error produces `none`; in the collection
loop the placeholder block is stored and only the read error bumps the
skipped counter. -/
theorem c8_binary_placeholder (p base rel : List String)
    (hrel : normalize_path p base = some rel) :
    process_file p base ReadResult.decodeError
        = some (relStrOf rel,
            "## `" ++ relStrOf rel ++ "`\n\n" ++ "[Binary file content not displayed]\n\n")
      ∧ process_file p base ReadResult.readError = none
      ∧ collectResults [process_file p base ReadResult.decodeError]
          = ([(relStrOf rel, binaryBlock (relStrOf rel))], 0)
      ∧ collectResults [process_file p base ReadResult.readError] = ([], 1) := by
  refine ⟨?_, ?_, ?_, ?_⟩ <;>
    simp [process_file, hrel, collectResults, binaryBlock, dictInsert]

/-- Witness for C8 at `r/img.png` under root `r`. -/
theorem c8_witness :
    normalize_path ["r", "img.png"] ["r"] = some ["img.png"]
      ∧ (process_file ["r", "img.png"] ["r"] ReadResult.decodeError
          = some (relStrOf ["img.png"],
              "## `" ++ relStrOf ["img.png"] ++ "`\n\n"
                ++ "[Binary file content not displayed]\n\n")
        ∧ process_file ["r", "img.png"] ["r"] ReadResult.readError = none
        ∧ collectResults [process_file ["r", "img.png"] ["r"] ReadResult.decodeError]
            = ([(relStrOf ["img.png"], binaryBlock (relStrOf ["img.png"]))], 0)
        ∧ collectResults [process_file ["r", "img.png"] ["r"] ReadResult.readError]
            = ([], 1)) :=
  ⟨by decide, c8_binary_placeholder ["r", "img.png"] ["r"] ["img.png"] (by decide)⟩

/-- C9 counterexample: for content `" x\n"` the emitted body is `"x"`, with
the leading space removed as well, while a trailing-only trim would keep
`" x"`; the produced block is not the block the claim describes. -/
theorem c9_counterexample :
    process_file ["r", "f.py"] ["r"] (ReadResult.text " x\n")
        = some ("f.py", mkBlockFmt "f.py" "py" "x")
      ∧ rstripOnly " x\n" = " x"
      ∧ process_file ["r", "f.py"] ["r"] (ReadResult.text " x\n")
          ≠ some ("f.py", mkBlockFmt "f.py" "py" (rstripOnly " x\n")) :=
  ⟨by decide, by decide, by decide⟩

/-- C9 (amended): the body emitted inside the fenced code block is the file
content with leading and trailing whitespace both trimmed. -/
theorem c9_strip_amended (p base rel : List String) (content : String)
    (hrel : normalize_path p base = some rel) :
    process_file p base (ReadResult.text content)
      = some (relStrOf rel,
          mkBlockFmt (relStrOf rel) (blockExtension (pathName p))
            (rstripOnly (lstripOnly content))) := by
  have hs : pyStrip content = rstripOnly (lstripOnly content) := rfl
  simp [process_file, hrel, hs]

/-- Witness for the amended C9 theorem at `r/f.py` with content `" x\n"`. -/
theorem c9_amended_witness :
    normalize_path ["r", "f.py"] ["r"] = some ["f.py"]
      ∧ process_file ["r", "f.py"] ["r"] (ReadResult.text " x\n")
          = some (relStrOf ["f.py"],
              mkBlockFmt (relStrOf ["f.py"]) (blockExtension (pathName ["r", "f.py"]))
                (rstripOnly (lstripOnly " x\n"))) :=
  ⟨by decide, c9_strip_amended ["r", "f.py"] ["r"] ["f.py"] " x\n" (by decide)⟩

theorem listHasP_iff {l : List (List String)} {x : List String} :
    listHasP l x = true ↔ x ∈ l := by
  simp [listHasP, List.any_eq_true]

theorem countOcc_eq_one {l : List (List String)} {p : List String}
    (h : l.Nodup) (hm : p ∈ l) : countOcc l p = 1 := by
  induction l with
  | nil => cases hm
  | cons a rest ih =>
    rw [List.nodup_cons] at h
    by_cases hap : a = p
    · subst hap
      have hfil : rest.filter (fun y => y = a) = [] := by
        rw [List.filter_eq_nil_iff]
        intro b hb hbeq
        rw [decide_eq_true_iff] at hbeq
        exact h.1 (hbeq ▸ hb)
      simp [countOcc, List.filter, hfil]
    · have hm2 : p ∈ rest := by
        rcases List.mem_cons.mp hm with h1 | h1
        · exact absurd h1.symm hap
        · exact h1
      have := ih h.2 hm2
      simpa [countOcc, List.filter, hap] using this

theorem lookupA_append_some {d1 : List (List String × List String)}
    (d2 : List (List String × List String)) {p v : List String}
    (h : lookupA d1 p = some v) : lookupA (d1 ++ d2) p = some v := by
  induction d1 with
  | nil => simp [lookupA] at h
  | cons kv rest ih =>
    obtain ⟨k, w⟩ := kv
    by_cases hk : k = p
    · simp [lookupA, hk] at h ⊢
      exact h
    · simp [lookupA, hk] at h ⊢
      exact ih h

theorem lookupA_append_none {d1 : List (List String × List String)}
    (d2 : List (List String × List String)) {p : List String}
    (h : lookupA d1 p = none) : lookupA (d1 ++ d2) p = lookupA d2 p := by
  induction d1 with
  | nil => simp
  | cons kv rest ih =>
    obtain ⟨k, w⟩ := kv
    by_cases hk : k = p
    · simp [lookupA, hk] at h
    · simp [lookupA, hk] at h ⊢
      exact ih h

theorem lookupA_none_iff {d : List (List String × List String)} {p : List String} :
    lookupA d p = none ↔ p ∉ d.map Prod.fst := by
  induction d with
  | nil => simp [lookupA]
  | cons kv rest ih =>
    obtain ⟨k, w⟩ := kv
    by_cases hk : k = p
    · subst hk
      simp [lookupA]
    · simp only [lookupA, if_neg hk, List.map_cons, List.mem_cons]
      rw [ih]
      constructor
      · intro h hor
        rcases hor with h1 | h2
        · exact hk h1.symm
        · exact h h2
      · intro h h2
        exact h (Or.inr h2)

theorem buildSelectionAux_nodup
    (acc : List (List String) × List (List String × List String))
    (evs : List (List String × List String))
    (h : acc.1.Nodup) : (buildSelectionAux acc evs).1.Nodup := by
  induction evs generalizing acc with
  | nil => exact h
  | cons e rest ih =>
    rw [buildSelectionAux]
    apply ih
    cases hx : listHasP acc.1 e.1 with
    | true => simpa [addCandidate, hx]
    | false =>
      have hmem : e.1 ∉ acc.1 := fun hm => by simp [listHasP_iff.mpr hm] at hx
      simp only [addCandidate, hx, Bool.false_eq_true, if_false]
      rw [(List.perm_append_singleton e.1 acc.1).nodup_iff, List.nodup_cons]
      exact ⟨hmem, h⟩

theorem buildSelectionAux_mem
    (acc : List (List String) × List (List String × List String))
    (evs : List (List String × List String)) (p : List String) :
    p ∈ (buildSelectionAux acc evs).1 ↔ p ∈ acc.1 ∨ p ∈ evs.map Prod.fst := by
  induction evs generalizing acc with
  | nil => simp [buildSelectionAux]
  | cons e rest ih =>
    rw [buildSelectionAux, ih]
    cases hx : listHasP acc.1 e.1 with
    | true =>
      have he : e.1 ∈ acc.1 := listHasP_iff.mp hx
      simp only [addCandidate, hx, if_pos, List.map_cons, List.mem_cons]
      constructor
      · rintro (h | h)
        · exact Or.inl h
        · exact Or.inr (Or.inr h)
      · rintro (h | h | h)
        · exact Or.inl h
        · subst h; exact Or.inl he
        · exact Or.inr h
    | false =>
      simp only [addCandidate, hx, List.map_cons, List.mem_cons]
      simp only [Bool.false_eq_true, if_false, List.mem_append, List.mem_singleton]
      constructor
      · rintro ((h | h) | h)
        · exact Or.inl h
        · exact Or.inr (Or.inl h)
        · exact Or.inr (Or.inr h)
      · rintro (h | h | h)
        · exact Or.inl (Or.inl h)
        · exact Or.inl (Or.inr h)
        · exact Or.inr h

theorem buildSelectionAux_lookup_some
    (acc : List (List String) × List (List String × List String))
    (evs : List (List String × List String)) (p v : List String)
    (h : lookupA acc.2 p = some v) :
    lookupA (buildSelectionAux acc evs).2 p = some v := by
  induction evs generalizing acc with
  | nil => exact h
  | cons e rest ih =>
    rw [buildSelectionAux]
    apply ih
    cases hx : listHasP acc.1 e.1 with
    | true => simpa [addCandidate, hx]
    | false =>
      simp only [addCandidate, hx, Bool.false_eq_true, if_false]
      exact lookupA_append_some _ h

theorem buildSelectionAux_lookup
    (acc : List (List String) × List (List String × List String))
    (evs : List (List String × List String)) (p : List String)
    (hinv : acc.2.map Prod.fst = acc.1)
    (hnot : listHasP acc.1 p = false) :
    lookupA (buildSelectionAux acc evs).2 p
      = (evs.find? (fun e => e.1 == p)).map Prod.snd := by
  induction evs generalizing acc with
  | nil =>
    have hm : p ∉ acc.2.map Prod.fst := by
      rw [hinv]
      intro hm
      simp [listHasP_iff.mpr hm] at hnot
    simp [buildSelectionAux, lookupA_none_iff.mpr hm]
  | cons e rest ih =>
    rw [buildSelectionAux]
    by_cases hep : e.1 = p
    · have hxe : listHasP acc.1 e.1 = false := by rw [hep]; exact hnot
      have hnil : lookupA acc.2 e.1 = none := by
        apply lookupA_none_iff.mpr
        rw [hinv]
        intro hm
        simp [listHasP_iff.mpr hm] at hxe
      have hadd : (addCandidate acc e).2 = acc.2 ++ [(e.1, e.2)] := by
        simp [addCandidate, hxe]
      have hsome : lookupA (addCandidate acc e).2 p = some e.2 := by
        rw [hadd, ← hep, lookupA_append_none _ hnil]
        simp [lookupA]
      rw [buildSelectionAux_lookup_some _ rest p e.2 hsome]
      rw [List.find?_cons_of_pos _ (by simp [hep])]
      rfl
    · have hinv2 : (addCandidate acc e).2.map Prod.fst = (addCandidate acc e).1 := by
        cases hx : listHasP acc.1 e.1 with
        | true => simpa [addCandidate, hx]
        | false => simp [addCandidate, hx, hinv]
      have hnot2 : listHasP (addCandidate acc e).1 p = false := by
        cases hx : listHasP acc.1 e.1 with
        | true => simpa [addCandidate, hx]
        | false =>
          simp only [addCandidate, hx, Bool.false_eq_true, if_false]
          rw [Bool.eq_false_iff]
          intro hc
          rcases listHasP_iff.mp hc with hm
          rcases List.mem_append.mp hm with hm2 | hm2
          · simp [listHasP_iff.mpr hm2] at hnot
          · exact hep (List.mem_singleton.mp hm2).symm
      rw [ih _ hinv2 hnot2]
      rw [List.find?_cons_of_neg _ (by simp [hep])]

/-- C5: a path discovered by the walk appears exactly once in the final
sorted selection of `build_file_list`, and the base-folder map attributes
it to the base of its first discovery event; later duplicate discoveries
under other roots are dropped. -/
theorem c5_dedup_first_wins (events : List (List String × List String))
    (p : List String) (hmem : p ∈ events.map Prod.fst) :
    countOcc (build_file_list events).1 p = 1
      ∧ lookupA (build_file_list events).2 p
        = (events.find? (fun e => e.1 == p)).map Prod.snd := by
  constructor
  · have hnd : (buildSelection events).1.Nodup :=
      buildSelectionAux_nodup ([], []) events (by simp)
    have hmem2 : p ∈ (buildSelection events).1 :=
      (buildSelectionAux_mem ([], []) events p).mpr (Or.inr hmem)
    have hperm : (build_file_list events).1.Perm (buildSelection events).1 :=
      List.perm_insertionSort pathLe _
    exact countOcc_eq_one (hperm.nodup_iff.mpr hnd) (hperm.mem_iff.mpr hmem2)
  · exact buildSelectionAux_lookup ([], []) events p rfl rfl

/-- Witness for C5: `A/x.py` is discovered under root `A` and again under
root `B`; it is selected once and attributed to `A`. -/
theorem c5_witness :
    ["A", "x.py"] ∈ c5Events.map Prod.fst
      ∧ (countOcc (build_file_list c5Events).1 ["A", "x.py"] = 1
        ∧ lookupA (build_file_list c5Events).2 ["A", "x.py"]
          = (c5Events.find? (fun e => e.1 == ["A", "x.py"])).map Prod.snd) :=
  ⟨by decide, c5_dedup_first_wins c5Events ["A", "x.py"] (by decide)⟩

/-- C6 counterexample: the dedup step keeps both `A/x.py` and `B/x.py`
(distinct resolved paths), yet their content blocks carry the same
relative-path key `x.py`, and in the keyed collection the later block
overwrites the earlier one, losing its content. -/
theorem c6_counterexample :
    (build_file_list c6Events).1 = [["A", "x.py"], ["B", "x.py"]]
      ∧ (process_file ["A", "x.py"] ["A"] (ReadResult.text "alpha")).map Prod.fst
          = (process_file ["B", "x.py"] ["B"] (ReadResult.text "beta")).map Prod.fst
      ∧ (collectResults [process_file ["A", "x.py"] ["A"] (ReadResult.text "alpha"),
            process_file ["B", "x.py"] ["B"] (ReadResult.text "beta")]).1
          = [("x.py", mkBlockFmt "x.py" "py" "beta")] :=
  ⟨by decide, by decide, by decide⟩

/-- C6 (amended): the dedup step does guarantee that no resolved absolute
path is selected twice: the selection list of `build_file_list` has no
duplicates. -/
theorem c6_dedup_amended (events : List (List String × List String)) :
    (build_file_list events).1.Nodup :=
  (List.perm_insertionSort pathLe _).nodup_iff.mpr
    (buildSelectionAux_nodup ([], []) events (by simp))

theorem dictInsert_of_not_mem (d : List (String × String)) (k v : String)
    (h : k ∉ d.map Prod.fst) : dictInsert d k v = d ++ [(k, v)] := by
  induction d with
  | nil => rfl
  | cons kv rest ih =>
    obtain ⟨k2, v2⟩ := kv
    have h1 : k2 ≠ k := fun he => h (by simp [he])
    have h2 : k ∉ rest.map Prod.fst := fun hm => h (by simp [hm])
    simp [dictInsert, h1, ih h2]

theorem dictFold_eq (l : List (String × String)) :
    ∀ acc : List (String × String),
      (acc.map Prod.fst ++ l.map Prod.fst).Nodup →
      l.foldl (fun d kv => dictInsert d kv.1 kv.2) acc = acc ++ l := by
  induction l with
  | nil =>
    intro acc _
    simp
  | cons kv rest ih =>
    intro acc h
    rw [List.foldl_cons]
    have hk : kv.1 ∉ acc.map Prod.fst := by
      rcases List.nodup_append.mp h with ⟨_, _, hdisj⟩
      intro hm
      exact hdisj hm (by simp)
    rw [dictInsert_of_not_mem _ _ _ hk]
    have h2 : ((acc ++ [kv]).map Prod.fst ++ rest.map Prod.fst).Nodup := by
      simpa [List.map_append, List.append_assoc] using h
    rw [ih _ h2]
    simp

theorem mergeBlocks_eq_of_nodup (l : List (String × String))
    (h : (l.map Prod.fst).Nodup) : mergeBlocks l = writeSorted l := by
  unfold mergeBlocks
  rw [dictFold_eq l [] (by simpa using h)]
  simp

instance : IsAntisymm (String × String) keyLt :=
  ⟨fun a b h1 h2 => by
    have : a.1 = b.1 := by
      apply String.ext
      exact charsLe_antisymm _ _ h1.1 h2.1
    exact absurd this h1.2⟩

theorem sorted_keyLt {l : List (String × String)} (hs : l.Sorted keyLe)
    (hnd : (l.map Prod.fst).Nodup) : l.Sorted keyLt := by
  have hne : l.Pairwise (fun a b => a.1 ≠ b.1) := List.pairwise_map.mp hnd
  exact (hs.and hne).imp (fun h => ⟨h.1, h.2⟩)

theorem writeSorted_eq_of_perm (l1 l2 : List (String × String))
    (h1 : (l1.map Prod.fst).Nodup) (hp : l1.Perm l2) :
    writeSorted l1 = writeSorted l2 := by
  have h2 : (l2.map Prod.fst).Nodup := ((hp.map Prod.fst).nodup_iff).mp h1
  have hs1 : (l1.insertionSort keyLe).Sorted keyLe := List.sorted_insertionSort keyLe l1
  have hs2 : (l2.insertionSort keyLe).Sorted keyLe := List.sorted_insertionSort keyLe l2
  have hperm : (l1.insertionSort keyLe).Perm (l2.insertionSort keyLe) :=
    (List.perm_insertionSort keyLe l1).trans (hp.trans (List.perm_insertionSort keyLe l2).symm)
  have hnd1 : ((l1.insertionSort keyLe).map Prod.fst).Nodup :=
    (((List.perm_insertionSort keyLe l1).map Prod.fst).nodup_iff).mpr h1
  have hnd2 : ((l2.insertionSort keyLe).map Prod.fst).Nodup :=
    (((List.perm_insertionSort keyLe l2).map Prod.fst).nodup_iff).mpr h2
  have heq : l1.insertionSort keyLe = l2.insertionSort keyLe :=
    List.eq_of_perm_of_sorted hperm (sorted_keyLt hs1 hnd1) (sorted_keyLt hs2 hnd2)
  unfold writeSorted
  rw [heq]

/-- C4 counterexample: the two blocks produced for `A/x.py` and `B/x.py`
carry the same relative-path key, and merging them in the two completion
orders yields different documents, so the emitted document is not
independent of worker completion order on every run. -/
theorem c4_counterexample :
    [c4BlockA, c4BlockB].Perm [c4BlockB, c4BlockA]
      ∧ c4BlockA.1 = c4BlockB.1
      ∧ mergeBlocks [c4BlockA, c4BlockB] ≠ mergeBlocks [c4BlockB, c4BlockA] :=
  ⟨List.Perm.swap c4BlockB c4BlockA [], by decide, by decide⟩

/-- C4 (amended): whenever the produced blocks have pairwise distinct
relative-path keys (in particular in any single-root run), `mergeBlocks`
yields the same document for every completion order of the workers. -/
theorem c4_deterministic_merge_amended (l1 l2 : List (String × String))
    (hnd : (l1.map Prod.fst).Nodup) (hp : l1.Perm l2) :
    mergeBlocks l1 = mergeBlocks l2 := by
  have hnd2 : (l2.map Prod.fst).Nodup := ((hp.map Prod.fst).nodup_iff).mp hnd
  rw [mergeBlocks_eq_of_nodup l1 hnd, mergeBlocks_eq_of_nodup l2 hnd2]
  exact writeSorted_eq_of_perm l1 l2 hnd hp

/-- Witness for the amended C4 theorem: blocks for `a.py`, `b.py`, `c.py`
arriving in the order `c.py`, `a.py`, `b.py` merge to the same document as
the sorted arrival order. -/
theorem c4_amended_witness :
    (([("a.py", "A"), ("b.py", "B"), ("c.py", "C")] : List (String × String)).map
        Prod.fst).Nodup
      ∧ ([("a.py", "A"), ("b.py", "B"), ("c.py", "C")] : List (String × String)).Perm
          [("c.py", "C"), ("a.py", "A"), ("b.py", "B")]
      ∧ mergeBlocks [("a.py", "A"), ("b.py", "B"), ("c.py", "C")]
          = mergeBlocks [("c.py", "C"), ("a.py", "A"), ("b.py", "B")] :=
  ⟨by decide, by decide,
    c4_deterministic_merge_amended _ _ (by decide) (by decide)⟩

theorem globMatchF_fuel : ∀ n m (ps : List GlobTok) (t : List Char),
    ps.length + t.length < n → ps.length + t.length < m →
    globMatchF n ps t = globMatchF m ps t := by
  intro n
  induction n with
  | zero =>
    intro m ps t hn _
    omega
  | succ n ih =>
    intro m ps t hn hm
    cases m with
    | zero => omega
    | succ m =>
      cases ps with
      | nil => rfl
      | cons tok ps =>
        cases tok with
        | star =>
          cases t with
          | nil =>
            simp only [globMatchF]
            exact ih m ps []
              (by simp only [List.length_cons] at hn ⊢; omega)
              (by simp only [List.length_cons] at hm ⊢; omega)
          | cons c ts =>
            simp only [globMatchF]
            rw [ih m ps (c :: ts)
                (by simp only [List.length_cons] at hn ⊢; omega)
                (by simp only [List.length_cons] at hm ⊢; omega),
              ih m (.star :: ps) ts
                (by simp only [List.length_cons] at hn ⊢; omega)
                (by simp only [List.length_cons] at hm ⊢; omega)]
        | anyOne =>
          cases t with
          | nil => rfl
          | cons c ts =>
            simp only [globMatchF]
            exact ih m ps ts
              (by simp only [List.length_cons] at hn ⊢; omega)
              (by simp only [List.length_cons] at hm ⊢; omega)
        | lit pc =>
          cases t with
          | nil => rfl
          | cons c ts =>
            simp only [globMatchF]
            rw [ih m ps ts
              (by simp only [List.length_cons] at hn ⊢; omega)
              (by simp only [List.length_cons] at hm ⊢; omega)]
        | oneOf neg items =>
          cases t with
          | nil => rfl
          | cons c ts =>
            simp only [globMatchF]
            rw [ih m ps ts
              (by simp only [List.length_cons] at hn ⊢; omega)
              (by simp only [List.length_cons] at hm ⊢; omega)]
